import Mathlib

/-!
A verification development for a Rust tool that parses the compiler's
`print-type-size` diagnostic output into structured type-layout records
and checks each record's declared size against the sizes of its parts.

The definitions below are a shallow embedding of `src/types.rs` and
`src/parse_layouts.rs`: strings are `List Char`, `u64` is `Nat`,
`Result`/`Option` become `Except`/`Option`, and the imperative line loop
becomes a fold over the list of input lines.
-/

namespace TypeSizes

/-! ## Data model (src/types.rs) -/

structure Field where
  name : List Char
  size : Nat
  alignment : Option Nat
  offset : Option Nat
deriving DecidableEq, Repr

structure ClosureVar where
  name : List Char
  size : Nat
  offset : Option Nat
  alignment : Option Nat
  type_info : Option (List Char)
deriving DecidableEq, Repr

inductive StructEntry where
  | field (f : Field)
  | upvar (c : ClosureVar)
  | localVar (c : ClosureVar)
  | padding (size : Nat)
deriving DecidableEq, Repr

structure Variant where
  name : List Char
  size : Nat
  entries : List StructEntry
deriving DecidableEq, Repr

inductive TypeKind where
  | struct (entries : List StructEntry)
  | enum (discriminant_size : Nat) (variants : List Variant)
  | union (fields : List Field)
deriving DecidableEq, Repr

structure TypeLayout where
  name : List Char
  size : Nat
  alignment : Nat
  kind : TypeKind
  unhandled_lines : List (List Char)
  raw_lines : List (List Char)
deriving DecidableEq, Repr

inductive VerificationError where
  | structSizeMismatch (expected : Nat) (actual : Nat)
  | variantSizeMismatch (variant_name : List Char) (expected : Nat) (actual : Nat)
  | unionSizeMismatch (expected : Nat) (actual_max : Nat)
  | enumTotalSizeMismatch (expected : Nat) (calculated_min : Nat)
deriving DecidableEq, Repr

/-! ## Verification engine (src/types.rs, `StructEntry::size` and `TypeLayout::verify`) -/

def StructEntry.size : StructEntry → Nat
  | .field f => f.size
  | .upvar c => c.size
  | .localVar c => c.size
  | .padding s => s

/-- Embeds `entries.iter().map(|e| e.size()).sum()`. -/
def entriesSum (es : List StructEntry) : Nat :=
  (es.map StructEntry.size).sum

/-- Embeds `iter().max().unwrap_or(0)` on a list of `u64`. -/
def maxNat (xs : List Nat) : Nat :=
  xs.foldl Nat.max 0

/-- The per-variant acceptance condition of `TypeLayout::verify`:
`calculated_variant_size == expected_size || (discriminant_size > 0 &&
calculated_variant_size == expected_size + discriminant_size)`. -/
def variantPasses (ds : Nat) (v : Variant) : Prop :=
  entriesSum v.entries = v.size ∨ (0 < ds ∧ entriesSum v.entries = v.size + ds)

instance (ds : Nat) (v : Variant) : Decidable (variantPasses ds v) :=
  inferInstanceAs (Decidable (entriesSum v.entries = v.size ∨
    (0 < ds ∧ entriesSum v.entries = v.size + ds)))

/-- The `for variant in variants` loop of `TypeLayout::verify`, returning the
first failing variant's error (the loop's early `return`). -/
def checkVariants (ds : Nat) : List Variant → Except VerificationError Unit
  | [] => .ok ()
  | v :: rest =>
    if variantPasses ds v then checkVariants ds rest
    else .error (.variantSizeMismatch v.name v.size (entriesSum v.entries))

/-- Embeds `TypeLayout::verify` from src/types.rs. -/
def TypeLayout.verify (l : TypeLayout) : Except VerificationError Unit :=
  match l.kind with
  | .struct entries =>
    if l.size = entriesSum entries then .ok ()
    else .error (.structSizeMismatch l.size (entriesSum entries))
  | .enum ds variants =>
    match checkVariants ds variants with
    | .error e => .error e
    | .ok _ =>
      if ds + maxNat (variants.map Variant.size) ≤ l.size ∨
          l.size = max ds (maxNat (variants.map Variant.size)) then .ok ()
      else .error (.enumTotalSizeMismatch l.size (ds + maxNat (variants.map Variant.size)))
  | .union fields =>
    if l.size = maxNat (fields.map Field.size) then .ok ()
    else .error (.unionSizeMismatch l.size (maxNat (fields.map Field.size)))

/-! ## Helper lemmas about the variant loop -/

theorem checkVariants_ok_of_all (ds : Nat) (vs : List Variant)
    (h : ∀ u ∈ vs, variantPasses ds u) : checkVariants ds vs = .ok () := by
  induction vs with
  | nil => rfl
  | cons u rest ih =>
    have hu : variantPasses ds u := h u (List.mem_cons_self u rest)
    simp only [checkVariants, if_pos hu]
    exact ih (fun x hx => h x (List.mem_cons_of_mem u hx))

theorem checkVariants_err_first (ds : Nat) (pre : List Variant) (v : Variant)
    (post : List Variant) (hpre : ∀ u ∈ pre, variantPasses ds u)
    (hv : ¬ variantPasses ds v) :
    checkVariants ds (pre ++ v :: post)
      = .error (.variantSizeMismatch v.name v.size (entriesSum v.entries)) := by
  induction pre with
  | nil => simp only [List.nil_append, checkVariants, if_neg hv]
  | cons u rest ih =>
    have hu : variantPasses ds u := hpre u (List.mem_cons_self u rest)
    simp only [List.cons_append, checkVariants, if_pos hu]
    exact ih (fun x hx => hpre x (List.mem_cons_of_mem u hx))

theorem foldl_max_shift (xs : List Nat) : ∀ a : Nat,
    xs.foldl Nat.max a = Nat.max a (xs.foldl Nat.max 0) := by
  induction xs with
  | nil => intro a; simp [List.foldl]
  | cons x rest ih =>
    intro a
    simp only [List.foldl]
    rw [ih (Nat.max a x), ih (Nat.max 0 x)]
    generalize List.foldl Nat.max 0 rest = m
    simp only [Nat.max_def]
    split_ifs <;> omega

theorem maxNat_cons (x : Nat) (xs : List Nat) :
    maxNat (x :: xs) = Nat.max x (maxNat xs) := by
  simp only [maxNat, List.foldl]
  rw [foldl_max_shift xs (Nat.max 0 x)]
  generalize List.foldl Nat.max 0 xs = m
  simp only [Nat.max_def]
  split_ifs <;> omega

/-! ## Claim theorems about the verification engine -/

/-- Claim C1: for a layout whose kind is `Struct`, `verify` succeeds iff the
sum of the sizes of every entry (fields, paddings, upvars and locals alike)
equals the declared size; otherwise it returns `StructSizeMismatch` whose
`expected` is the declared size and whose `actual` is the computed sum. -/
theorem C1_struct_size_check (l : TypeLayout) (es : List StructEntry)
    (h : l.kind = .struct es) :
    (l.verify = .ok () ↔ entriesSum es = l.size) ∧
    (entriesSum es ≠ l.size →
      l.verify = .error (.structSizeMismatch l.size (entriesSum es))) := by
  simp only [TypeLayout.verify, h]
  by_cases hc : l.size = entriesSum es
  · rw [if_pos hc]
    exact ⟨⟨fun _ => hc.symm, fun _ => rfl⟩, fun hne => absurd hc.symm hne⟩
  · rw [if_neg hc]
    refine ⟨⟨fun he => absurd he (fun he => Except.noConfusion he),
      fun he => absurd he.symm hc⟩, fun _ => rfl⟩

def sampleStruct : TypeLayout :=
  ⟨"S".toList, 7, 1,
    .struct [.field ⟨"a".toList, 3, none, none⟩, .padding 4], [], []⟩

theorem C1_struct_size_check_witness :
    sampleStruct.verify = .ok () ∧
    TypeLayout.verify { sampleStruct with size := 9 }
      = .error (.structSizeMismatch 9 7) := by
  constructor
  · exact (C1_struct_size_check sampleStruct _ rfl).1.mpr (by decide)
  · exact (C1_struct_size_check { sampleStruct with size := 9 } _ rfl).2 (by decide)

/-- Claim C2: for an `Enum` layout, a variant passes the per-variant check
exactly when its entry sizes sum to its declared size, or, when
`discriminant_size > 0`, to the declared size plus the discriminant size;
the first variant failing both checks determines the returned
`VariantSizeMismatch` (with that variant's name, `expected` the declared
variant size and `actual` the computed sum), independent of all later
variants; when all variants pass, no `VariantSizeMismatch` is returned.
With `discriminant_size = 4`, a variant of declared size 12 passes with
entry sum 16 and fails with sums 11 and 17, giving `expected` 12 and
`actual` 11 or 17. -/
theorem C2_variant_size_check :
    (∀ (l : TypeLayout) (ds : Nat) (vs pre post : List Variant) (v : Variant),
      l.kind = .enum ds vs → vs = pre ++ v :: post →
      (∀ u ∈ pre, variantPasses ds u) → ¬ variantPasses ds v →
      l.verify = .error (.variantSizeMismatch v.name v.size (entriesSum v.entries))) ∧
    (∀ (l : TypeLayout) (ds : Nat) (vs : List Variant),
      l.kind = .enum ds vs → (∀ u ∈ vs, variantPasses ds u) →
      ∀ nm e a, l.verify ≠ .error (.variantSizeMismatch nm e a)) ∧
    (∀ (ds : Nat) (v : Variant), variantPasses ds v ↔
      (entriesSum v.entries = v.size ∨
        (0 < ds ∧ entriesSum v.entries = v.size + ds))) ∧
    variantPasses 4 ⟨"A".toList, 12, [.padding 16]⟩ ∧
    ¬ variantPasses 4 ⟨"B".toList, 12, [.padding 11]⟩ ∧
    ¬ variantPasses 4 ⟨"B".toList, 12, [.padding 17]⟩ ∧
    TypeLayout.verify ⟨"E".toList, 16, 1,
      .enum 4 [⟨"A".toList, 12, [.padding 16]⟩], [], []⟩ = .ok () ∧
    TypeLayout.verify ⟨"E".toList, 16, 1,
        .enum 4 [⟨"B".toList, 12, [.padding 11]⟩], [], []⟩
      = .error (.variantSizeMismatch "B".toList 12 11) ∧
    TypeLayout.verify ⟨"E".toList, 16, 1,
        .enum 4 [⟨"B".toList, 12, [.padding 17]⟩], [], []⟩
      = .error (.variantSizeMismatch "B".toList 12 17) := by
  refine ⟨?_, ?_, fun ds v => Iff.rfl, by decide, by decide, by decide, rfl, rfl, rfl⟩
  · intro l ds vs pre post v h hsplit hpre hv
    subst hsplit
    simp only [TypeLayout.verify, h]
    rw [checkVariants_err_first ds pre v post hpre hv]
  · intro l ds vs h hall nm e a
    simp only [TypeLayout.verify, h, checkVariants_ok_of_all ds vs hall]
    by_cases hc : ds + maxNat (vs.map Variant.size) ≤ l.size ∨
        l.size = max ds (maxNat (vs.map Variant.size))
    · rw [if_pos hc]
      exact fun hcontra => Except.noConfusion hcontra
    · rw [if_neg hc]
      intro hcontra
      injection hcontra with h2
      exact VerificationError.noConfusion h2

theorem C2_variant_size_check_witness :
    TypeLayout.verify ⟨"W".toList, 30, 1,
        .enum 4 [⟨"A".toList, 12, [.padding 16]⟩, ⟨"C".toList, 10, [.padding 9]⟩,
          ⟨"D".toList, 5, [.padding 5]⟩], [], []⟩
      = .error (.variantSizeMismatch "C".toList 10 9) :=
  C2_variant_size_check.1 _ 4 _ [⟨"A".toList, 12, [.padding 16]⟩]
    [⟨"D".toList, 5, [.padding 5]⟩] ⟨"C".toList, 10, [.padding 9]⟩ rfl rfl
    (by decide) (by decide)

def enumVars : List Variant :=
  [⟨"A".toList, 8, [.padding 8]⟩, ⟨"B".toList, 16, [.padding 16]⟩]

/-- Claim C3: for an `Enum` layout whose variants all pass the per-variant
check, `verify` succeeds exactly when the declared size is at least
`discriminant_size + max_variant_size` or equals
`max discriminant_size max_variant_size`, where `max_variant_size` is the
largest declared variant size (0 with no variants); otherwise it returns
`EnumTotalSizeMismatch` with `expected` the declared size and
`calculated_min` the additive minimum. With variants of declared sizes 8
and 16 and `discriminant_size` 4, declared sizes 20 and 16 pass while 15
fails with `expected` 15 and `calculated_min` 20. -/
theorem C3_enum_total_size_check :
    (∀ (l : TypeLayout) (ds : Nat) (vs : List Variant),
      l.kind = .enum ds vs → (∀ u ∈ vs, variantPasses ds u) →
      ((l.verify = .ok () ↔
          (ds + maxNat (vs.map Variant.size) ≤ l.size ∨
            l.size = max ds (maxNat (vs.map Variant.size)))) ∧
        (¬ (ds + maxNat (vs.map Variant.size) ≤ l.size ∨
            l.size = max ds (maxNat (vs.map Variant.size))) →
          l.verify = .error (.enumTotalSizeMismatch l.size
            (ds + maxNat (vs.map Variant.size)))))) ∧
    (maxNat [] = 0 ∧ ∀ (x : Nat) (xs : List Nat),
      maxNat (x :: xs) = Nat.max x (maxNat xs)) ∧
    TypeLayout.verify ⟨"E".toList, 20, 4, .enum 4 enumVars, [], []⟩ = .ok () ∧
    TypeLayout.verify ⟨"E".toList, 16, 4, .enum 4 enumVars, [], []⟩ = .ok () ∧
    TypeLayout.verify ⟨"E".toList, 15, 4, .enum 4 enumVars, [], []⟩
      = .error (.enumTotalSizeMismatch 15 20) := by
  refine ⟨?_, ⟨rfl, maxNat_cons⟩, rfl, rfl, rfl⟩
  intro l ds vs h hall
  simp only [TypeLayout.verify, h, checkVariants_ok_of_all ds vs hall]
  by_cases hc : ds + maxNat (vs.map Variant.size) ≤ l.size ∨
      l.size = max ds (maxNat (vs.map Variant.size))
  · rw [if_pos hc]
    exact ⟨⟨fun _ => hc, fun _ => rfl⟩, fun hn => absurd hc hn⟩
  · rw [if_neg hc]
    exact ⟨⟨fun he => absurd he (fun he => Except.noConfusion he),
      fun hcond => absurd hcond hc⟩, fun _ => rfl⟩

theorem C3_enum_total_size_check_witness :
    TypeLayout.verify ⟨"F".toList, 15, 4, .enum 4 enumVars, [], []⟩
      = .error (.enumTotalSizeMismatch 15 20) :=
  (C3_enum_total_size_check.1 _ 4 enumVars rfl (by decide)).2 (by decide)

/-- Claim C5: for a `Union` layout, `verify` succeeds iff the declared size
equals the maximum field size (0 for an empty field list); otherwise it
returns `UnionSizeMismatch` with `expected` the declared size and
`actual_max` that maximum. -/
theorem C5_union_size_check (l : TypeLayout) (fs : List Field)
    (h : l.kind = .union fs) :
    (l.verify = .ok () ↔ l.size = maxNat (fs.map Field.size)) ∧
    (l.size ≠ maxNat (fs.map Field.size) →
      l.verify = .error (.unionSizeMismatch l.size (maxNat (fs.map Field.size)))) := by
  simp only [TypeLayout.verify, h]
  by_cases hc : l.size = maxNat (fs.map Field.size)
  · rw [if_pos hc]
    exact ⟨⟨fun _ => hc, fun _ => rfl⟩, fun hne => absurd hc hne⟩
  · rw [if_neg hc]
    exact ⟨⟨fun he => absurd he (fun he => Except.noConfusion he),
      fun he => absurd he hc⟩, fun _ => rfl⟩

def sampleUnion : TypeLayout :=
  ⟨"U".toList, 8, 4,
    .union [⟨"a".toList, 8, none, none⟩, ⟨"b".toList, 4, none, none⟩], [], []⟩

theorem C5_union_size_check_witness :
    sampleUnion.verify = .ok () ∧
    TypeLayout.verify { sampleUnion with size := 6 }
      = .error (.unionSizeMismatch 6 8) := by
  constructor
  · exact (C5_union_size_check sampleUnion _ rfl).1.mpr (by decide)
  · exact (C5_union_size_check { sampleUnion with size := 6 } _ rfl).2 (by decide)

/-! ## Line grammar (src/parse_layouts.rs, the `lazy_static` regexes)

Input lines are `List Char`.  Each `RE_*` regex of the source is anchored
(`^\s*print-type-size\s+<keyword>...`), so it is embedded as a
deterministic prefix parser; the single lazy capture group `(.+?)` of a
pattern is embedded by `findLazy`, which tries every capture length in
increasing order exactly as leftmost-first regex matching does. -/

/-- Strip the literal prefix `p` from `s`, or fail. -/
def dropPfx : List Char → List Char → Option (List Char)
  | [], s => some s
  | _ :: _, [] => none
  | p :: ps, c :: cs => if p = c then dropPfx ps cs else none

/-- Substring containment, as Rust's `str::contains` on a literal needle. -/
def hasSubstr (needle : List Char) : List Char → Bool
  | [] => needle.isEmpty
  | c :: cs => needle.isPrefixOf (c :: cs) || hasSubstr needle cs

/-- Decimal value of a digit string, as `str::parse::<u64>` on it. -/
def digitsToNat (ds : List Char) : Nat :=
  ds.foldl (fun n c => n * 10 + (c.toNat - 48)) 0

/-- Match `(\d+)` at the front of `s`: the greedy nonempty digit run and the
remaining characters. -/
def parseNatPfx (s : List Char) : Option (Nat × List Char) :=
  match s.takeWhile Char.isDigit with
  | [] => none
  | ds => some (digitsToNat ds, s.dropWhile Char.isDigit)

/-- Match `(.+?)` followed by the literal `delim` followed by whatever the
continuation `p` accepts: capture lengths are tried in increasing order,
and the first length at which both `delim` and `p` succeed wins. -/
def findLazy (delim : List Char) (p : List Char → Option α) :
    List Char → List Char → Option (List Char × α)
  | _, [] => none
  | acc, c :: cs =>
    match dropPfx delim cs with
    | some after =>
      match p after with
      | some a => some (acc ++ [c], a)
      | none => findLazy delim p (acc ++ [c]) cs
    | none => findLazy delim p (acc ++ [c]) cs

def tick : Char := Char.ofNat 96

/-- Embeds `name_with_ticks.trim_matches` on the backtick character. -/
def trimTicks (s : List Char) : List Char :=
  ((s.dropWhile (fun c => c = tick)).reverse.dropWhile (fun c => c = tick)).reverse

/-- Unanchored leftmost search for `<key>(\d+)`, as `RE_ATTR_OFFSET` /
`RE_ATTR_ALIGN` applied to a field's attribute tail. -/
def searchKeyNat (key : List Char) : List Char → Option Nat
  | [] => none
  | c :: cs =>
    match (dropPfx key (c :: cs)).bind parseNatPfx with
    | some p => some p.1
    | none => searchKeyNat key cs

def markerChars : List Char := "print-type-size".toList

/-- Matches `^\s*print-type-size\s+` — the shared anchored front of every
`RE_*` pattern; returns the characters after the required whitespace run. -/
def afterMarker (s : List Char) : Option (List Char) :=
  match dropPfx markerChars (s.dropWhile Char.isWhitespace) with
  | none => none
  | some r =>
    match r with
    | [] => none
    | c :: _ => if c.isWhitespace then some (r.dropWhile Char.isWhitespace) else none

def bytesKw : List Char := " bytes".toList

/-- Matches `(\d+) bytes` and discards the rest of the line. -/
def bytesNat (r : List Char) : Option Nat :=
  (parseNatPfx r).bind fun p => (dropPfx bytesKw p.2).map fun _ => p.1

/-- Matches `(\d+) bytes(.*)` — the size and the attribute tail. -/
def sizeBytesRest (r : List Char) : Option (Nat × List Char) :=
  (parseNatPfx r).bind fun p => (dropPfx bytesKw p.2).map fun rest => (p.1, rest)

def typeKw : List Char := "type: `".toList

def tickColon : List Char := "`: ".toList

def alignSep : List Char := " bytes, alignment: ".toList

/-- Embeds `RE_TYPE`: captures name, total size, alignment. -/
def matchType (s : List Char) : Option (List Char × Nat × Nat) :=
  (afterMarker s).bind fun r =>
  (dropPfx typeKw r).bind fun r1 =>
  (findLazy tickColon (fun r2 =>
    (parseNatPfx r2).bind fun p =>
    (dropPfx alignSep p.2).bind fun r3 =>
    (parseNatPfx r3).bind fun q =>
    (dropPfx bytesKw q.2).map fun _ => (p.1, q.1)) [] r1).map
  fun p => (p.1, p.2.1, p.2.2)

def variantKw : List Char := "variant `".toList

/-- Embeds `RE_VARIANT`: captures the name (with any surrounding backticks
still attached) and the declared size. -/
def matchVariant (s : List Char) : Option (List Char × Nat) :=
  (afterMarker s).bind fun r =>
  (dropPfx variantKw r).bind fun r1 =>
  (findLazy tickColon bytesNat [] r1).map fun p => (p.1, p.2)

def discKw : List Char := "discriminant: ".toList

/-- Embeds `RE_DISCRIMINANT`: captures the size. -/
def matchDiscriminant (s : List Char) : Option Nat :=
  (afterMarker s).bind fun r =>
  (dropPfx discKw r).bind fun r1 => bytesNat r1

def upvarKw : List Char := "upvar `".toList

def offSep : List Char := ", offset: ".toList

/-- The optional `(?:, offset: (\d+) bytes, alignment: (\d+) bytes)?` tail
of `RE_UPVAR`. -/
def upvarOpt (r : List Char) : Option Nat × Option Nat :=
  match (dropPfx offSep r).bind (fun r1 =>
      (parseNatPfx r1).bind fun p =>
      (dropPfx alignSep p.2).bind fun r2 =>
      (parseNatPfx r2).bind fun q =>
      (dropPfx bytesKw q.2).map fun _ => (p.1, q.1)) with
  | some p => (some p.1, some p.2)
  | none => (none, none)

/-- Embeds `RE_UPVAR`: captures name, size, optional offset, optional
alignment. -/
def matchUpvar (s : List Char) : Option (List Char × Nat × Option Nat × Option Nat) :=
  (afterMarker s).bind fun r =>
  (dropPfx upvarKw r).bind fun r1 =>
  (findLazy tickColon (fun r2 =>
    (parseNatPfx r2).bind fun p =>
    (dropPfx bytesKw p.2).map fun rest =>
    (p.1, (upvarOpt rest).1, (upvarOpt rest).2)) [] r1).map
  fun p => (p.1, p.2.1, p.2.2.1, p.2.2.2)

def localKw : List Char := "local `".toList

def typeSep : List Char := ", type: ".toList

/-- Embeds `RE_LOCAL`: captures name, size, optional free-text type
description. -/
def matchLocal (s : List Char) : Option (List Char × Nat × Option (List Char)) :=
  (afterMarker s).bind fun r =>
  (dropPfx localKw r).bind fun r1 =>
  (findLazy tickColon (fun r2 =>
    (parseNatPfx r2).bind fun p =>
    (dropPfx bytesKw p.2).map fun rest =>
    (p.1, match dropPfx typeSep rest with
          | some (c :: cs) => some (c :: cs)
          | _ => none)) [] r1).map
  fun p => (p.1, p.2.1, p.2.2)

def fieldKw : List Char := "field ".toList

def colonSp : List Char := ": ".toList

def dotChar : Char := '.'

/-- Embeds `RE_FIELD`: captures the name (first the backticked alternative,
then the bare one, both starting with a dot), the size, and the free-text
attribute tail. -/
def matchField (s : List Char) : Option (List Char × Nat × List Char) :=
  (afterMarker s).bind fun r =>
  (dropPfx fieldKw r).bind fun r1 =>
  match (dropPfx [tick, dotChar] r1).bind (fun rb =>
      findLazy [tick] (fun r2 => (dropPfx colonSp r2).bind sizeBytesRest)
        [dotChar] rb) with
  | some p => some (p.1, p.2.1, p.2.2)
  | none =>
    ((dropPfx [dotChar] r1).bind fun rb =>
      findLazy colonSp sizeBytesRest [dotChar] rb).map
    fun p => (p.1, p.2.1, p.2.2)

def paddingKw : List Char := "padding: ".toList

/-- Embeds `RE_PADDING`: captures the size. -/
def matchPadding (s : List Char) : Option Nat :=
  (afterMarker s).bind fun r =>
  (dropPfx paddingKw r).bind fun r1 => bytesNat r1

def endPaddingKw : List Char := "end padding: ".toList

/-- Embeds `RE_END_PADDING`: captures the size. -/
def matchEndPadding (s : List Char) : Option Nat :=
  (afterMarker s).bind fun r =>
  (dropPfx endPaddingKw r).bind fun r1 => bytesNat r1

/-! ## Layout builder (src/parse_layouts.rs, `parse_layouts`) -/

/-- The result of the `else if` chain over the non-type-header regexes, in
the source's testing order: variant, discriminant, upvar, local, field,
padding, end padding; `other` is `handled == false`. -/
inductive Shape where
  | variantH (name : List Char) (size : Nat)
  | discriminantH (size : Nat)
  | upvarH (name : List Char) (size : Nat) (off : Option Nat) (al : Option Nat)
  | localH (name : List Char) (size : Nat) (ty : Option (List Char))
  | fieldH (name : List Char) (size : Nat) (attrs : List Char)
  | paddingH (size : Nat)
  | endPaddingH (size : Nat)
  | other
deriving DecidableEq, Repr

def classify (line : List Char) : Shape :=
  match matchVariant line with
  | some p => .variantH p.1 p.2
  | none =>
    match matchDiscriminant line with
    | some n => .discriminantH n
    | none =>
      match matchUpvar line with
      | some p => .upvarH p.1 p.2.1 p.2.2.1 p.2.2.2
      | none =>
        match matchLocal line with
        | some p => .localH p.1 p.2.1 p.2.2
        | none =>
          match matchField line with
          | some p => .fieldH p.1 p.2.1 p.2.2
          | none =>
            match matchPadding line with
            | some n => .paddingH n
            | none =>
              match matchEndPadding line with
              | some n => .endPaddingH n
              | none => .other

/-- Push a closed variant into the layout's variant list — a no-op unless
the kind is `Enum` (`if let TypeKind::Enum { variants, .. }`). -/
def pushVariant (l : TypeLayout) (v : Variant) : TypeLayout :=
  match l.kind with
  | .enum ds vs => { l with kind := .enum ds (vs ++ [v]) }
  | _ => l

/-- Embeds the `if let Some(variant) = current_variant.take()` step at the
start of `finalize_layout`. -/
def closeVariant (l : TypeLayout) (cv : Option Variant) : TypeLayout :=
  match cv with
  | some v => pushVariant l v
  | none => l

/-- The `filter_map` keeping only `Field` entries during the union
reclassification. -/
def fieldsOnly (es : List StructEntry) : List Field :=
  es.filterMap fun e =>
    match e with
    | .field f => some f
    | _ => none

/-- The `finalize_layout` closure: close any open variant, then reclassify a
one-variant `Enum` named after the layout itself as a `Union` of that
variant's `Field` entries. -/
def finalize_layout (l : TypeLayout) (cv : Option Variant) : TypeLayout :=
  let l1 := closeVariant l cv
  match l1.kind with
  | .enum _ vs =>
    match vs with
    | [v] =>
      if v.name = l1.name then { l1 with kind := .union (fieldsOnly v.entries) }
      else l1
    | _ => l1
  | _ => l1

/-- The builder's accumulator: the finished layouts plus the open layout and
open variant. -/
structure ParseState where
  layouts : List TypeLayout
  current_layout : Option TypeLayout
  current_variant : Option Variant
deriving DecidableEq, Repr

def offsetKey : List Char := "offset: ".toList

def alignKey : List Char := "alignment: ".toList

/-- Routing of one non-blank, non-type-header line into the open layout
(whose `raw_lines` has already received the line) and the open variant —
the `else if` chain of the loop body. -/
def applyShape (layout : TypeLayout) (cv : Option Variant) (line : List Char) :
    TypeLayout × Option Variant :=
  match classify line with
  | .variantH nm vsz =>
    let layout :=
      match cv with
      | some v => pushVariant layout v
      | none => layout
    let layout :=
      match layout.kind with
      | .struct _ => { layout with kind := .enum 0 [] }
      | _ => layout
    (layout, some ⟨trimTicks nm, vsz, []⟩)
  | .discriminantH n =>
    (match layout.kind with
     | .enum _ vs => { layout with kind := .enum n vs }
     | _ => { layout with kind := .enum n [] }, cv)
  | .upvarH nm sz off al =>
    (match cv with
     | some vr => (layout, some { vr with entries := vr.entries ++ [.upvar ⟨nm, sz, off, al, none⟩] })
     | none => (layout, none))
  | .localH nm sz ty =>
    (match cv with
     | some vr => (layout, some { vr with entries := vr.entries ++ [.localVar ⟨nm, sz, none, none, ty⟩] })
     | none => (layout, none))
  | .fieldH nm sz attrs =>
    let e : StructEntry := .field ⟨nm, sz, searchKeyNat alignKey attrs, searchKeyNat offsetKey attrs⟩
    (match cv with
     | some vr => (layout, some { vr with entries := vr.entries ++ [e] })
     | none =>
       match layout.kind with
       | .struct es => ({ layout with kind := .struct (es ++ [e]) }, none)
       | _ => (layout, none))
  | .paddingH n =>
    (match cv with
     | some vr => (layout, some { vr with entries := vr.entries ++ [.padding n] })
     | none =>
       match layout.kind with
       | .struct es => ({ layout with kind := .struct (es ++ [.padding n]) }, none)
       | _ => (layout, none))
  | .endPaddingH n =>
    (match layout.kind with
     | .struct es => { layout with kind := .struct (es ++ [.padding n]) }
     | _ => layout, cv)
  | .other =>
    (if hasSubstr markerChars line then
      { layout with unhandled_lines := layout.unhandled_lines ++ [line] }
     else layout, cv)

/-- A fresh layout opened by a type-header line. -/
def newLayout (nm : List Char) (sz al : Nat) (line : List Char) : TypeLayout :=
  ⟨nm, sz, al, .struct [], [], [line]⟩

/-- One iteration of the `for line_result in reader.lines()` loop. -/
def processLine (st : ParseState) (line : List Char) : ParseState :=
  if line.all Char.isWhitespace then st
  else
    match matchType line with
    | some p =>
      match st.current_layout with
      | some l =>
        { layouts := st.layouts ++ [finalize_layout l st.current_variant],
          current_layout := some (newLayout p.1 p.2.1 p.2.2 line),
          current_variant := none }
      | none => { st with current_layout := some (newLayout p.1 p.2.1 p.2.2 line) }
    | none =>
      match st.current_layout with
      | none => st
      | some l =>
        let q := applyShape { l with raw_lines := l.raw_lines ++ [line] }
          st.current_variant line
        { st with current_layout := some q.1, current_variant := q.2 }

/-- Embeds `parse_layouts`: folds the loop body over the input lines, then
finalizes the layout still open at end of input. -/
def parse_layouts (lines : List (List Char)) : List TypeLayout :=
  let st := lines.foldl processLine ⟨[], none, none⟩
  match st.current_layout with
  | some l => st.layouts ++ [finalize_layout l st.current_variant]
  | none => st.layouts

/-! ## Lemmas about the line grammar -/

theorem isPrefixOf_of_dropPfx (p : List Char) :
    ∀ {s r : List Char}, dropPfx p s = some r → p.isPrefixOf s = true := by
  induction p with
  | nil => intro s r _; simp [List.isPrefixOf]
  | cons a as ih =>
    intro s r h
    cases s with
    | nil => simp [dropPfx] at h
    | cons c cs =>
      simp only [dropPfx] at h
      split at h
      · next hac =>
        subst hac
        simp [List.isPrefixOf, ih h]
      · exact Option.noConfusion h

theorem hasSubstr_of_dropWhile (q : Char → Bool) (needle : List Char) :
    ∀ (s r : List Char), dropPfx needle (s.dropWhile q) = some r →
      hasSubstr needle s = true := by
  intro s
  induction s with
  | nil =>
    intro r h
    cases needle with
    | nil => simp [hasSubstr]
    | cons a as => simp [List.dropWhile, dropPfx] at h
  | cons c cs ih =>
    intro r h
    by_cases hq : q c
    · rw [List.dropWhile_cons, if_pos hq] at h
      simp [hasSubstr, ih r h]
    · rw [List.dropWhile_cons, if_neg hq] at h
      simp [hasSubstr, isPrefixOf_of_dropPfx needle h]

theorem afterMarker_hasSubstr {s r : List Char} (h : afterMarker s = some r) :
    hasSubstr markerChars s = true := by
  cases hd : dropPfx markerChars (s.dropWhile Char.isWhitespace) with
  | none => rw [afterMarker, hd] at h; exact Option.noConfusion h
  | some r0 => exact hasSubstr_of_dropWhile Char.isWhitespace markerChars s r0 hd

theorem dropWhile_nil_of_all (q : Char → Bool) :
    ∀ (s : List Char), s.all q = true → s.dropWhile q = [] := by
  intro s
  induction s with
  | nil => intro _; rfl
  | cons c cs ih =>
    intro h
    rw [List.all_cons, Bool.and_eq_true] at h
    rw [List.dropWhile_cons, if_pos h.1]
    exact ih h.2

theorem afterMarker_not_blank {s r : List Char} (h : afterMarker s = some r) :
    s.all Char.isWhitespace = false := by
  cases hall : s.all Char.isWhitespace with
  | false => rfl
  | true =>
    rw [afterMarker, dropWhile_nil_of_all Char.isWhitespace s hall] at h
    exact Option.noConfusion h

theorem dropPfx_head_ne {p q s r : List Char} {a b : Char}
    (hp : p.head? = some a) (hq : q.head? = some b) (hab : a ≠ b)
    (h : dropPfx p s = some r) : dropPfx q s = none := by
  cases p with
  | nil => exact Option.noConfusion hp
  | cons a' p' =>
    cases q with
    | nil => exact Option.noConfusion hq
    | cons b' q' =>
      injection hp with hp'
      injection hq with hq'
      subst hp'
      subst hq'
      cases s with
      | nil => simp [dropPfx] at h
      | cons c cs =>
        simp only [dropPfx] at h ⊢
        split at h
        · next hac =>
          rw [if_neg]
          intro hbc
          exact hab (hbc.trans hac.symm).symm
        · exact Option.noConfusion h

/-- A line matched by `RE_VARIANT` is non-blank, is not a type header, and
is routed to the variant branch of the chain. -/
theorem shape_of_matchVariant {s nm : List Char} {sz : Nat}
    (h : matchVariant s = some (nm, sz)) :
    s.all Char.isWhitespace = false ∧ matchType s = none ∧
    classify s = .variantH nm sz := by
  have h' := h
  unfold matchVariant at h'
  obtain ⟨r, hA, h2⟩ := Option.bind_eq_some.mp h'
  obtain ⟨r1, hK, _⟩ := Option.bind_eq_some.mp h2
  refine ⟨afterMarker_not_blank hA, ?_, ?_⟩
  · have ht : dropPfx typeKw r = none :=
      dropPfx_head_ne (p := variantKw) (q := typeKw) (a := 'v') (b := 't')
        rfl rfl (by decide) hK
    simp [matchType, hA, ht]
  · simp [classify, h]

/-- A line matched by `RE_DISCRIMINANT` is non-blank, is not a type header,
and is routed to the discriminant branch of the chain. -/
theorem shape_of_matchDiscriminant {s : List Char} {n : Nat}
    (h : matchDiscriminant s = some n) :
    s.all Char.isWhitespace = false ∧ matchType s = none ∧
    classify s = .discriminantH n := by
  have h' := h
  unfold matchDiscriminant at h'
  obtain ⟨r, hA, h2⟩ := Option.bind_eq_some.mp h'
  obtain ⟨r1, hK, _⟩ := Option.bind_eq_some.mp h2
  have ht : dropPfx typeKw r = none :=
    dropPfx_head_ne (p := discKw) (q := typeKw) (a := 'd') (b := 't')
      rfl rfl (by decide) hK
  have hv : dropPfx variantKw r = none :=
    dropPfx_head_ne (p := discKw) (q := variantKw) (a := 'd') (b := 'v')
      rfl rfl (by decide) hK
  refine ⟨afterMarker_not_blank hA, by simp [matchType, hA, ht], ?_⟩
  have hmv : matchVariant s = none := by simp [matchVariant, hA, hv]
  simp [classify, hmv, h]

/-- A line matched by `RE_UPVAR` is non-blank, is not a type header, and is
routed to the upvar branch of the chain. -/
theorem shape_of_matchUpvar {s nm : List Char} {sz : Nat} {off al : Option Nat}
    (h : matchUpvar s = some (nm, sz, off, al)) :
    s.all Char.isWhitespace = false ∧ matchType s = none ∧
    classify s = .upvarH nm sz off al := by
  have h' := h
  unfold matchUpvar at h'
  obtain ⟨r, hA, h2⟩ := Option.bind_eq_some.mp h'
  obtain ⟨r1, hK, _⟩ := Option.bind_eq_some.mp h2
  have ht : dropPfx typeKw r = none :=
    dropPfx_head_ne (p := upvarKw) (q := typeKw) (a := 'u') (b := 't')
      rfl rfl (by decide) hK
  have hv : dropPfx variantKw r = none :=
    dropPfx_head_ne (p := upvarKw) (q := variantKw) (a := 'u') (b := 'v')
      rfl rfl (by decide) hK
  have hd : dropPfx discKw r = none :=
    dropPfx_head_ne (p := upvarKw) (q := discKw) (a := 'u') (b := 'd')
      rfl rfl (by decide) hK
  refine ⟨afterMarker_not_blank hA, by simp [matchType, hA, ht], ?_⟩
  have hmv : matchVariant s = none := by simp [matchVariant, hA, hv]
  have hmd : matchDiscriminant s = none := by simp [matchDiscriminant, hA, hd]
  simp [classify, hmv, hmd, h]

/-- A line matched by `RE_LOCAL` is non-blank, is not a type header, and is
routed to the local branch of the chain. -/
theorem shape_of_matchLocal {s nm : List Char} {sz : Nat} {ty : Option (List Char)}
    (h : matchLocal s = some (nm, sz, ty)) :
    s.all Char.isWhitespace = false ∧ matchType s = none ∧
    classify s = .localH nm sz ty := by
  have h' := h
  unfold matchLocal at h'
  obtain ⟨r, hA, h2⟩ := Option.bind_eq_some.mp h'
  obtain ⟨r1, hK, _⟩ := Option.bind_eq_some.mp h2
  have ht : dropPfx typeKw r = none :=
    dropPfx_head_ne (p := localKw) (q := typeKw) (a := 'l') (b := 't')
      rfl rfl (by decide) hK
  have hv : dropPfx variantKw r = none :=
    dropPfx_head_ne (p := localKw) (q := variantKw) (a := 'l') (b := 'v')
      rfl rfl (by decide) hK
  have hd : dropPfx discKw r = none :=
    dropPfx_head_ne (p := localKw) (q := discKw) (a := 'l') (b := 'd')
      rfl rfl (by decide) hK
  have hu : dropPfx upvarKw r = none :=
    dropPfx_head_ne (p := localKw) (q := upvarKw) (a := 'l') (b := 'u')
      rfl rfl (by decide) hK
  refine ⟨afterMarker_not_blank hA, by simp [matchType, hA, ht], ?_⟩
  have hmv : matchVariant s = none := by simp [matchVariant, hA, hv]
  have hmd : matchDiscriminant s = none := by simp [matchDiscriminant, hA, hd]
  have hmu : matchUpvar s = none := by simp [matchUpvar, hA, hu]
  simp [classify, hmv, hmd, hmu, h]

/-- A line matched by `RE_END_PADDING` is non-blank, is not a type header,
and falls through every earlier branch of the chain to the end-padding
branch. -/
theorem shape_of_matchEndPadding {s : List Char} {n : Nat}
    (h : matchEndPadding s = some n) :
    s.all Char.isWhitespace = false ∧ matchType s = none ∧
    classify s = .endPaddingH n := by
  have h' := h
  unfold matchEndPadding at h'
  obtain ⟨r, hA, h2⟩ := Option.bind_eq_some.mp h'
  obtain ⟨r1, hK, _⟩ := Option.bind_eq_some.mp h2
  have ht : dropPfx typeKw r = none :=
    dropPfx_head_ne (p := endPaddingKw) (q := typeKw) (a := 'e') (b := 't')
      rfl rfl (by decide) hK
  have hv : dropPfx variantKw r = none :=
    dropPfx_head_ne (p := endPaddingKw) (q := variantKw) (a := 'e') (b := 'v')
      rfl rfl (by decide) hK
  have hd : dropPfx discKw r = none :=
    dropPfx_head_ne (p := endPaddingKw) (q := discKw) (a := 'e') (b := 'd')
      rfl rfl (by decide) hK
  have hu : dropPfx upvarKw r = none :=
    dropPfx_head_ne (p := endPaddingKw) (q := upvarKw) (a := 'e') (b := 'u')
      rfl rfl (by decide) hK
  have hl : dropPfx localKw r = none :=
    dropPfx_head_ne (p := endPaddingKw) (q := localKw) (a := 'e') (b := 'l')
      rfl rfl (by decide) hK
  have hf : dropPfx fieldKw r = none :=
    dropPfx_head_ne (p := endPaddingKw) (q := fieldKw) (a := 'e') (b := 'f')
      rfl rfl (by decide) hK
  have hp : dropPfx paddingKw r = none :=
    dropPfx_head_ne (p := endPaddingKw) (q := paddingKw) (a := 'e') (b := 'p')
      rfl rfl (by decide) hK
  refine ⟨afterMarker_not_blank hA, by simp [matchType, hA, ht], ?_⟩
  have hmv : matchVariant s = none := by simp [matchVariant, hA, hv]
  have hmd : matchDiscriminant s = none := by simp [matchDiscriminant, hA, hd]
  have hmu : matchUpvar s = none := by simp [matchUpvar, hA, hu]
  have hml : matchLocal s = none := by simp [matchLocal, hA, hl]
  have hmf : matchField s = none := by simp [matchField, hA, hf]
  have hmp : matchPadding s = none := by simp [matchPadding, hA, hp]
  simp [classify, hmv, hmd, hmu, hml, hmf, hmp, h]

theorem closeVariant_name (l : TypeLayout) (cv : Option Variant) :
    (closeVariant l cv).name = l.name := by
  cases cv with
  | none => rfl
  | some v => cases hk : l.kind <;> simp [closeVariant, pushVariant, hk]

/-! ## Claim theorems about the layout builder -/

def uLine1 : List Char := "print-type-size type: `U`: 8 bytes, alignment: 4 bytes".toList

def uLine2 : List Char := "print-type-size variant `U`: 8 bytes".toList

def uLine3 : List Char := "print-type-size field `.0`: 8 bytes".toList

/-- Claim C4: a layout that finalizes with kind `Enum` holding exactly one
variant named like the layout itself is reclassified to a `Union` whose
fields are exactly that variant's `Field` entries in order, every
`Padding`, `Upvar` and `Local` entry being discarded; any other variant
count, or a differing single-variant name, leaves the layout unchanged by
finalization. -/
theorem C4_union_reclassification :
    (∀ (l : TypeLayout) (cv : Option Variant) (ds : Nat) (v : Variant),
      (closeVariant l cv).kind = .enum ds [v] → v.name = l.name →
      finalize_layout l cv
        = { closeVariant l cv with kind := .union (fieldsOnly v.entries) }) ∧
    (∀ (l : TypeLayout) (cv : Option Variant) (ds : Nat) (vs : List Variant),
      (closeVariant l cv).kind = .enum ds vs → vs.length ≠ 1 →
      finalize_layout l cv = closeVariant l cv) ∧
    (∀ (l : TypeLayout) (cv : Option Variant) (ds : Nat) (v : Variant),
      (closeVariant l cv).kind = .enum ds [v] → v.name ≠ l.name →
      finalize_layout l cv = closeVariant l cv) ∧
    (fieldsOnly [] = []) ∧
    (∀ (f : Field) (es : List StructEntry),
      fieldsOnly (.field f :: es) = f :: fieldsOnly es) ∧
    (∀ (n : Nat) (es : List StructEntry),
      fieldsOnly (.padding n :: es) = fieldsOnly es) ∧
    (∀ (c : ClosureVar) (es : List StructEntry),
      fieldsOnly (.upvar c :: es) = fieldsOnly es) ∧
    (∀ (c : ClosureVar) (es : List StructEntry),
      fieldsOnly (.localVar c :: es) = fieldsOnly es) ∧
    parse_layouts [uLine1, uLine2, uLine3]
      = [⟨"U".toList, 8, 4, .union [⟨".0".toList, 8, none, none⟩], [],
          [uLine1, uLine2, uLine3]⟩] := by
  refine ⟨?_, ?_, ?_, rfl, fun f es => rfl, fun n es => rfl, fun c es => rfl,
    fun c es => rfl, rfl⟩
  · intro l cv ds v h hn
    simp only [finalize_layout, h]
    rw [closeVariant_name l cv, if_pos hn]
  · intro l cv ds vs h hlen
    simp only [finalize_layout, h]
    cases vs with
    | nil => rfl
    | cons v rest =>
      cases rest with
      | nil => exact absurd rfl hlen
      | cons w rest2 => rfl
  · intro l cv ds v h hn
    simp only [finalize_layout, h]
    rw [closeVariant_name l cv, if_neg hn]

def w4Layout : TypeLayout := ⟨"W4".toList, 4, 4, .enum 2 [], [], []⟩

def w4Variant : Variant :=
  ⟨"W4".toList, 4, [.field ⟨".a".toList, 4, none, none⟩, .padding 1]⟩

theorem C4_union_reclassification_witness :
    finalize_layout w4Layout (some w4Variant)
      = { closeVariant w4Layout (some w4Variant) with
          kind := .union (fieldsOnly w4Variant.entries) } :=
  C4_union_reclassification.1 w4Layout (some w4Variant) 2 w4Variant rfl rfl

def c6Layout : TypeLayout := ⟨"T".toList, 4, 4, .struct [], [], ["x".toList]⟩

def c6State : ParseState := ⟨[], some c6Layout, none⟩

def c6Line : List Char := "hello".toList

/-- Claim C6 counterexample: a non-blank line without the
`print-type-size` marker, processed while a layout is open, is NOT left
unrecorded — the state changes, because the line is appended to the open
layout's `raw_lines`. -/
theorem C6_nonmarker_counterexample :
    c6Line.all Char.isWhitespace = false ∧
    hasSubstr markerChars c6Line = false ∧
    processLine c6State c6Line ≠ c6State ∧
    processLine c6State c6Line
      = ⟨[], some ⟨"T".toList, 4, 4, .struct [], [],
          ["x".toList, c6Line]⟩, none⟩ := by
  refine ⟨rfl, rfl, by decide, by decide⟩

/-- Claim C6 (amended): a non-blank line without the `print-type-size`
marker changes no entry list, no open variant, no `unhandled_lines` and no
finished layout, and is dropped outright when no layout is open; but when a
layout is open the line is appended verbatim to that layout's `raw_lines`. -/
theorem C6_nonmarker_only_raw_lines (st : ParseState) (line : List Char)
    (hb : line.all Char.isWhitespace = false)
    (hm : hasSubstr markerChars line = false) :
    processLine st line =
      match st.current_layout with
      | none => st
      | some l =>
        { st with
          current_layout := some ({ l with raw_lines := l.raw_lines ++ [line] }) } := by
  have hA : afterMarker line = none := by
    cases hA : afterMarker line with
    | none => rfl
    | some r => rw [afterMarker_hasSubstr hA] at hm; exact Bool.noConfusion hm
  have hT : matchType line = none := by simp [matchType, hA]
  have hV : matchVariant line = none := by simp [matchVariant, hA]
  have hD : matchDiscriminant line = none := by simp [matchDiscriminant, hA]
  have hU : matchUpvar line = none := by simp [matchUpvar, hA]
  have hL : matchLocal line = none := by simp [matchLocal, hA]
  have hF : matchField line = none := by simp [matchField, hA]
  have hP : matchPadding line = none := by simp [matchPadding, hA]
  have hE : matchEndPadding line = none := by simp [matchEndPadding, hA]
  have hC : classify line = .other := by
    simp [classify, hV, hD, hU, hL, hF, hP, hE]
  cases hcl : st.current_layout with
  | none => simp [processLine, hb, hT, hcl]
  | some l => simp [processLine, hb, hT, hcl, applyShape, hC, hm]

def w6Layout : TypeLayout := ⟨"W6".toList, 2, 1, .struct [.padding 2], [], []⟩

def w6State : ParseState := ⟨[], some w6Layout, some ⟨"V6".toList, 1, []⟩⟩

def w6Line : List Char := "note: irrelevant".toList

theorem C6_nonmarker_only_raw_lines_witness :
    processLine w6State w6Line
      = { w6State with
          current_layout :=
            some ({ w6Layout with raw_lines := w6Layout.raw_lines ++ [w6Line] }) } :=
  C6_nonmarker_only_raw_lines w6State w6Line rfl rfl

/-- Claim C7: a closure-capture (upvar) or closure-local line processed
while a layout is open appends the resulting `ClosureVar` entry to the open
variant's entry list when a variant is open; with no open variant it
contributes no entry to any layout, variant or output record — the only
state change is the verbatim `raw_lines` echo. -/
theorem C7_closure_routing :
    (∀ (st : ParseState) (l : TypeLayout) (line nm : List Char) (sz : Nat)
        (off al : Option Nat),
      st.current_layout = some l →
      matchUpvar line = some (nm, sz, off, al) →
      processLine st line =
        { st with
          current_layout := some ({ l with raw_lines := l.raw_lines ++ [line] }),
          current_variant :=
            match st.current_variant with
            | some vr =>
              some ({ vr with
                entries := vr.entries ++ [.upvar ⟨nm, sz, off, al, none⟩] })
            | none => none }) ∧
    (∀ (st : ParseState) (l : TypeLayout) (line nm : List Char) (sz : Nat)
        (ty : Option (List Char)),
      st.current_layout = some l →
      matchLocal line = some (nm, sz, ty) →
      processLine st line =
        { st with
          current_layout := some ({ l with raw_lines := l.raw_lines ++ [line] }),
          current_variant :=
            match st.current_variant with
            | some vr =>
              some ({ vr with
                entries := vr.entries ++ [.localVar ⟨nm, sz, none, none, ty⟩] })
            | none => none }) := by
  constructor
  · intro st l line nm sz off al hcl h
    obtain ⟨hb, hT, hC⟩ := shape_of_matchUpvar h
    cases hcv : st.current_variant with
    | none => simp [processLine, hb, hT, hcl, applyShape, hC, hcv]
    | some vr => simp [processLine, hb, hT, hcl, applyShape, hC, hcv]
  · intro st l line nm sz ty hcl h
    obtain ⟨hb, hT, hC⟩ := shape_of_matchLocal h
    cases hcv : st.current_variant with
    | none => simp [processLine, hb, hT, hcl, applyShape, hC, hcv]
    | some vr => simp [processLine, hb, hT, hcl, applyShape, hC, hcv]

def w7Line : List Char :=
  "print-type-size upvar `x`: 4 bytes, offset: 0 bytes, alignment: 4 bytes".toList

def w7Layout : TypeLayout := ⟨"C7".toList, 8, 4, .enum 0 [], [], []⟩

def w7Variant : Variant := ⟨"V7".toList, 8, []⟩

def w7State : ParseState := ⟨[], some w7Layout, some w7Variant⟩

theorem C7_closure_routing_witness :
    processLine w7State w7Line
      = ⟨[], some ⟨"C7".toList, 8, 4, .enum 0 [], [], [w7Line]⟩,
          some ⟨"V7".toList, 8,
            [.upvar ⟨"x".toList, 4, some 0, some 4, none⟩]⟩⟩ :=
  C7_closure_routing.1 w7State w7Layout w7Line "x".toList 4 (some 0) (some 4)
    rfl rfl

/-- Claim C8: an end-padding line never appends an entry to the open
variant's entry list — the open variant is untouched — and when the open
layout's kind is `Struct` it appends a `Padding` entry of the captured size
to the layout's own entry list. -/
theorem C8_end_padding_routing (st : ParseState) (l : TypeLayout)
    (line : List Char) (n : Nat)
    (hcl : st.current_layout = some l) (h : matchEndPadding line = some n) :
    processLine st line =
      { st with
        current_layout := some (match l.kind with
          | .struct es => { l with kind := .struct (es ++ [.padding n]), raw_lines := l.raw_lines ++ [line] }
          | _ => { l with raw_lines := l.raw_lines ++ [line] }),
        current_variant := st.current_variant } := by
  obtain ⟨hb, hT, hC⟩ := shape_of_matchEndPadding h
  cases hk : l.kind with
  | struct es => simp [processLine, hb, hT, hcl, applyShape, hC, hk]
  | enum ds vs => simp [processLine, hb, hT, hcl, applyShape, hC, hk]
  | union fs => simp [processLine, hb, hT, hcl, applyShape, hC, hk]

def w8Line : List Char := "print-type-size end padding: 3 bytes".toList

def w8Layout : TypeLayout := ⟨"C8".toList, 8, 4, .struct [.padding 5], [], []⟩

def w8State : ParseState := ⟨[], some w8Layout, some ⟨"V8".toList, 2, []⟩⟩

theorem C8_end_padding_routing_witness :
    processLine w8State w8Line
      = ⟨[], some ⟨"C8".toList, 8, 4, .struct [.padding 5, .padding 3], [],
          [w8Line]⟩, some ⟨"V8".toList, 2, []⟩⟩ :=
  C8_end_padding_routing w8State w8Layout w8Line 3 rfl rfl

/-- Claim C9: when the open layout's kind is still `Struct` with a
non-empty entry list, the first variant-header or discriminant line
replaces the kind by `Enum` with an empty variant list, so the accumulated
entries are dropped from the structured record and survive only in
`raw_lines`. -/
theorem C9_struct_promotion_discards_entries :
    (∀ (st : ParseState) (l : TypeLayout) (line nm : List Char)
        (es : List StructEntry) (vsz : Nat),
      st.current_layout = some l → l.kind = .struct es → es ≠ [] →
      st.current_variant = none →
      matchVariant line = some (nm, vsz) →
      processLine st line =
        { st with
          current_layout := some ({ l with kind := .enum 0 [], raw_lines := l.raw_lines ++ [line] }),
          current_variant := some ⟨trimTicks nm, vsz, []⟩ }) ∧
    (∀ (st : ParseState) (l : TypeLayout) (line : List Char)
        (es : List StructEntry) (n : Nat),
      st.current_layout = some l → l.kind = .struct es → es ≠ [] →
      matchDiscriminant line = some n →
      processLine st line =
        { st with
          current_layout := some ({ l with kind := .enum n [], raw_lines := l.raw_lines ++ [line] }),
          current_variant := st.current_variant }) := by
  constructor
  · intro st l line nm es vsz hcl hk hne hcv h
    obtain ⟨hb, hT, hC⟩ := shape_of_matchVariant h
    simp [processLine, hb, hT, hcl, applyShape, hC, hcv, hk]
  · intro st l line es n hcl hk hne h
    obtain ⟨hb, hT, hC⟩ := shape_of_matchDiscriminant h
    simp [processLine, hb, hT, hcl, applyShape, hC, hk]

def dLine1 : List Char := "print-type-size type: `E`: 16 bytes, alignment: 8 bytes".toList

def dLine2 : List Char := "print-type-size variant `A`: 12 bytes".toList

def dLine3 : List Char := "print-type-size discriminant: 1 bytes".toList

def dLine4 : List Char := "print-type-size discriminant: 8 bytes".toList

def w9Layout : TypeLayout :=
  ⟨"C9".toList, 8, 4, .struct [.field ⟨".a".toList, 8, none, none⟩], [], []⟩

def w9State : ParseState := ⟨[], some w9Layout, none⟩

theorem C9_struct_promotion_discards_entries_witness :
    processLine w9State dLine2
      = ⟨[], some ⟨"C9".toList, 8, 4, .enum 0 [], [], [dLine2]⟩,
          some ⟨"A".toList, 12, []⟩⟩ :=
  C9_struct_promotion_discards_entries.1 w9State w9Layout dLine2 "A".toList
    [.field ⟨".a".toList, 8, none, none⟩] 12 rfl rfl (by decide) rfl rfl

/-- Claim C10: on a layout whose kind is already `Enum`, a discriminant
line overwrites `discriminant_size` with the captured value (keeping the
variants), so with several discriminant lines in one layout the finalized
`discriminant_size` is the last line's value. -/
theorem C10_discriminant_overwrites :
    (∀ (st : ParseState) (l : TypeLayout) (line : List Char) (ds : Nat)
        (vs : List Variant) (n : Nat),
      st.current_layout = some l → l.kind = .enum ds vs →
      matchDiscriminant line = some n →
      processLine st line =
        { st with
          current_layout := some ({ l with kind := .enum n vs, raw_lines := l.raw_lines ++ [line] }),
          current_variant := st.current_variant }) ∧
    parse_layouts [dLine1, dLine2, dLine3, dLine4]
      = [⟨"E".toList, 16, 8, .enum 8 [⟨"A".toList, 12, []⟩], [],
          [dLine1, dLine2, dLine3, dLine4]⟩] := by
  constructor
  · intro st l line ds vs n hcl hk h
    obtain ⟨hb, hT, hC⟩ := shape_of_matchDiscriminant h
    simp [processLine, hb, hT, hcl, applyShape, hC, hk]
  · rfl

def w10Layout : TypeLayout :=
  ⟨"C10".toList, 16, 8, .enum 4 [⟨"B".toList, 12, []⟩], [], []⟩

def w10State : ParseState := ⟨[], some w10Layout, none⟩

theorem C10_discriminant_overwrites_witness :
    processLine w10State dLine4
      = ⟨[], some ⟨"C10".toList, 16, 8, .enum 8 [⟨"B".toList, 12, []⟩], [],
          [dLine4]⟩, none⟩ :=
  C10_discriminant_overwrites.1 w10State w10Layout dLine4 4
    [⟨"B".toList, 12, []⟩] 8 rfl rfl rfl

end TypeSizes
